import Mathlib

/-!
# Verification of the mcumgr-client SMP host library

Shallow embedding of the mcumgr-client sources (`src/transport.rs`,
`src/transport_serial.rs`, `src/image.rs`, `src/default.rs`) and proofs about
the serial wire codec, the SMP sequence-counter discipline, envelope
validation, the `rc` gate, and the upload pipeline's per-chunk step.

Bytes are modelled as `Nat` values `< 256`; machine integers as `Nat`/`Int`
with explicit `% 2^w` or masking where overflow matters; fallible paths
return `Option`; a Rust `panic!` (slice/arith out of bounds) is modelled
as `none` at exactly the places where the Rust code would panic.
-/

namespace McumgrClient

/-- Big-endian 2-byte encoding, as produced by `write_u16::<BigEndian>`.
Writing a `usize` length `as u16` truncates mod 2^16; the two `% 256`
projections below realise exactly that truncation. -/
def be16 (n : Nat) : List Nat := [n / 256 % 256, n % 256]

/-- Read a big-endian `u16` from the front of a byte slice
(`BigEndian::read_u16`).  The Rust call panics when the slice is shorter
than 2 bytes; every use below is guarded so that the shortfall case is
unreachable, and it returns 0 here. -/
def read_u16 : List Nat → Nat
  | a :: b :: _ => a * 256 + b
  | _ => 0

/-- One shift-xor round of CRC16 with polynomial 0x1021 (XMODEM), on a
16-bit value kept as a masked `Nat`. -/
def crc16_round (c : Nat) : Nat :=
  if c &&& 32768 ≠ 0 then ((c <<< 1) ^^^ 4129) &&& 65535
  else (c <<< 1) &&& 65535

/-- Feed one input byte into the CRC16-XMODEM state
(`crc16::State::<XMODEM>` semantics: xor the byte into the high half,
then 8 polynomial rounds). -/
def crc16_update (crc b : Nat) : Nat :=
  (List.range 8).foldl (fun c _ => crc16_round c) ((crc ^^^ (b <<< 8)) &&& 65535)

/-- CRC16-XMODEM of a byte list (`crc16::State::<XMODEM>::calculate`):
initial value 0, no reflection, no xor-out. -/
def crc16 (l : List Nat) : Nat := l.foldl crc16_update 0

/-! ## Base64 (standard alphabet, canonical padding)

Embedding of `base64::engine::general_purpose::STANDARD`: encoding pads
with `'='` (61); decoding requires the input length to be a multiple of 4,
canonical padding, and zero trailing bits (the crate's
`DecodePaddingMode::RequireCanonical` with `decode_allow_trailing_bits =
false`). -/

/-- The standard base64 alphabet: sextet → ASCII code. -/
def b64char (s : Nat) : Nat :=
  if s < 26 then 65 + s
  else if s < 52 then 97 + (s - 26)
  else if s < 62 then 48 + (s - 52)
  else if s = 62 then 43
  else 47

/-- Inverse alphabet: ASCII code → sextet, `none` for non-alphabet bytes
(including `'='`, which is handled as padding by the decoder). -/
def b64inv (c : Nat) : Option Nat :=
  if 65 ≤ c ∧ c ≤ 90 then some (c - 65)
  else if 97 ≤ c ∧ c ≤ 122 then some (c - 97 + 26)
  else if 48 ≤ c ∧ c ≤ 57 then some (c - 48 + 52)
  else if c = 43 then some 62
  else if c = 47 then some 63
  else none

/-- Standard base64 encoding of a byte list, with padding. -/
def b64encode : List Nat → List Nat
  | [] => []
  | [a] => [b64char (a / 4), b64char (a % 4 * 16), 61, 61]
  | [a, b] => [b64char (a / 4), b64char (a % 4 * 16 + b / 16), b64char (b % 16 * 4), 61]
  | a :: b :: c :: rest =>
      b64char (a / 4) :: b64char (a % 4 * 16 + b / 16) :: b64char (b % 16 * 4 + c / 64) ::
        b64char (c % 64) :: b64encode rest

/-- Standard base64 decoding with canonical padding: the input length must
be a multiple of 4 (`| _ => none` covers the 1-, 2- and 3-byte tails),
padding may only occur in the final quantum, and trailing bits must be
zero. -/
def b64decode : List Nat → Option (List Nat)
  | [] => some []
  | c1 :: c2 :: c3 :: c4 :: rest =>
      match b64inv c1, b64inv c2 with
      | some s1, some s2 =>
        if c3 = 61 then
          if c4 = 61 ∧ rest = [] ∧ s2 % 16 = 0 then some [s1 * 4 + s2 / 16] else none
        else
          match b64inv c3 with
          | some s3 =>
            if c4 = 61 then
              if rest = [] ∧ s3 % 4 = 0 then
                some [s1 * 4 + s2 / 16, s2 % 16 * 16 + s3 / 4]
              else none
            else
              match b64inv c4 with
              | some s4 =>
                match b64decode rest with
                | some tl => some ((s1 * 4 + s2 / 16) :: (s2 % 16 * 16 + s3 / 4) ::
                    (s3 % 4 * 64 + s4) :: tl)
                | none => none
              | none => none
          | none => none
      | _, _ => none
  | _ => none

/-! ## Serial framing (`transport_serial.rs`) -/

/-- The line-chunking loop at the end of `encode_request`
(`transport_serial.rs:74-89`): emit the base64 bytes in lines of at most
`c = linelength - 4` characters, the first line prefixed by the start
marker `0x06 0x09`, continuation lines by `0x04 0x14`, each terminated by
`0x0A`.  The Rust `while` loop terminates whenever `c ≥ 1`; the `fuel`
argument (instantiated with the base64 length, an upper bound on the
number of lines) makes the recursion structural. -/
def chunkLines : Nat → Nat → Bool → List Nat → List Nat
  | _, _, _, [] => []
  | 0, _, _, _ :: _ => []
  | fuel + 1, c, first, x :: xs =>
      (if first then [6, 9] else [4, 20]) ++ (x :: xs).take c ++ [10] ++
        chunkLines fuel c false ((x :: xs).drop c)

/-- Serial frame assembly, `encode_request(linelength, req)`
(`transport_serial.rs:51-92`): append the big-endian CRC16-XMODEM of the
request, prepend the big-endian `u16` total length, base64-encode, and
emit as marker-prefixed lines. -/
def encode_request (linelength : Nat) (req : List Nat) : List Nat :=
  let withCrc := req ++ be16 (crc16 req)
  let framed := be16 withCrc.length ++ withCrc
  let b64 := b64encode framed
  chunkLines b64.length (linelength - 4) true b64

/-- Read bytes from the stream until a newline (`0x0A`), returning the line
body and the remaining stream; `none` if the stream ends first (the Rust
loop would block until the port timeout). -/
def takeLine : List Nat → Option (List Nat × List Nat)
  | [] => none
  | b :: rest =>
      if b = 10 then some ([], rest)
      else match takeLine rest with
        | some (l, r) => some (b :: l, r)
        | none => none

/-- The tail of `serial_transceive` (`transport_serial.rs:145-163`): decode
the accumulated base64 once more, check the length prefix, and verify the
CRC.  `none` models both the explicit `bail!` paths and the Rust panics
(`read_u16` on < 2 bytes, slice `2..len-2` on < 4 bytes). -/
def finalizeFrame (decoded : List Nat) : Option (List Nat) :=
  if decoded.length < 2 then none
  else
    let len := read_u16 decoded
    if len ≠ decoded.length - 2 then none
    else if decoded.length < 4 then none
    else
      let data := (decoded.drop 2).take (decoded.length - 4)
      let ck := read_u16 (decoded.drop (decoded.length - 2))
      if ck ≠ crc16 data then none
      else some data

/-- The read loop of `serial_transceive` (`transport_serial.rs:104-143`):
expect `0x06 0x09` before the first line (`bytes_read == 0`, i.e. the
accumulator is empty) and `0x04 0x14` before every later line, accumulate
each line into `acc`, base64-decode the accumulation, extract the expected
length from the first decode, and stop once `decoded.len() - 2 ≥
expected_len`.  `fuel` (instantiated with the stream length, an upper
bound on the number of lines) makes the recursion structural; `none`
models an error or a read that never completes. -/
def readFrame : Nat → List Nat → List Nat → Nat → Option (List Nat)
  | 0, _, _, _ => none
  | fuel + 1, stream, acc, elen =>
      match stream with
      | m1 :: m2 :: rest =>
        if (if acc.isEmpty then m1 = 6 ∧ m2 = 9 else m1 = 4 ∧ m2 = 20) then
          match takeLine rest with
          | some (line, rest') =>
            let acc' := acc ++ line
            match b64decode acc' with
            | some decoded =>
              if elen = 0 ∧ decoded.length < 2 then none
              else
                let elen' := if elen = 0 then read_u16 decoded else elen
                if elen' ≤ decoded.length - 2 then finalizeFrame decoded
                else readFrame fuel rest' acc' elen'
            | none => none
          | none => none
        else none
      | _ => none

/-- The receive direction of `serial_transceive`, as a function of the raw
byte stream arriving from the port. -/
def decode_serial (stream : List Nat) : Option (List Nat) :=
  readFrame (stream.length + 1) stream [] 0

/-! ## SMP header and envelope validation -/

/-- Modelled from the spec: the operation codes of the SMP header
(`nmp_hdr.rs` is not under `src/`; spec §3 fixes Read=0, ReadRsp=1,
Write=2, WriteRsp=3). -/
inductive NmpOp where
  | read
  | readRsp
  | write
  | writeRsp
deriving DecidableEq

/-- Modelled from the spec: the SMP group ids (`nmp_hdr.rs` is not under
`src/`; spec §3 fixes Default=0, Image=1). -/
inductive NmpGroup where
  | defaultGroup
  | image
deriving DecidableEq

/-- Modelled from the spec: the 8-byte SMP header record (`nmp_hdr.rs` is
not under `src/`; spec §3 lists op, flags, len, group, seq, id). -/
structure NmpHdr where
  op : NmpOp
  flags : Nat
  len : Nat
  group : NmpGroup
  seq : Nat
  id : Nat
deriving DecidableEq

/-- The Rsp counterpart of a request op, as computed by the `match` in
`check_answer` (`image.rs:42-46`); `none` for the `_ => return false`
arm. -/
def rsp_op_of : NmpOp → Option NmpOp
  | .read => some .readRsp
  | .write => some .writeRsp
  | _ => none

/-- Envelope validation used by `erase`, `list`, `test` and `upload`
(`image.rs:35-55`): sequence id, then op counterpart and group. -/
def check_answer (req rsp : NmpHdr) : Bool :=
  if rsp.seq ≠ req.seq then false
  else
    match rsp_op_of req.op with
    | none => false
    | some expected =>
      if rsp.op ≠ expected ∨ rsp.group ≠ req.group then false
      else true

/-- The two envelope-mismatch errors: the image operations only ever
raise `wrongAnswerTypes` ("wrong answer types"), `reset` distinguishes
"wrong sequence number" from "wrong response types". -/
inductive EnvErr where
  | wrongSequence
  | wrongAnswerTypes
deriving DecidableEq

/-- How the four image operations react to `check_answer`: any mismatch is
reported as `wrongAnswerTypes` (`bail!("wrong answer types")`,
`image.rs:68-70, 96-98, 122-124, 238-240`). -/
def image_op_env_check (req rsp : NmpHdr) : Option EnvErr :=
  if check_answer req rsp then none else some .wrongAnswerTypes

/-- Envelope validation inlined in `reset` (`default.rs:25-33`): a
sequence mismatch fails first with "wrong sequence number", then a wrong
op or group fails with "wrong response types". -/
def reset_env_check (rsp : NmpHdr) (reqSeq : Nat) : Option EnvErr :=
  if rsp.seq ≠ reqSeq then some .wrongSequence
  else if rsp.op ≠ NmpOp.writeRsp ∨ rsp.group ≠ NmpGroup.defaultGroup then
    some .wrongAnswerTypes
  else none

/-! ## CBOR response bodies and the rc gate -/

/-- Dynamic CBOR value (`serde_cbor::Value`), restricted to the
constructors the client inspects. -/
inductive CborValue where
  | int (i : Int)
  | text (s : String)
  | bytes (b : List Nat)
  | boolean (b : Bool)
  | null
  | array (xs : List CborValue)
  | map (entries : List (CborValue × CborValue))

/-- Truncating cast of a CBOR integer (an `i128`) to `u32`, as in
`*parsed_rc as u32` (`image.rs:25`). -/
def u32_cast (i : Int) : Nat := (i % 4294967296).toNat

/-- Truncating cast of a CBOR integer (an `i128`) to a 64-bit `usize`, as
in `*off_val as usize` (`image.rs:259`). -/
def usize_cast (i : Int) : Nat := (i % 18446744073709551616).toNat

/-- Body scan of `get_rc` (`image.rs:18-33`): walk all map entries, and
each `"rc"` key carrying an integer overwrites the remembered value (the
last one wins); a non-map body or a missing integer `"rc"` yields
`none`. -/
def get_rc_entries (rc : Option Nat) : List (CborValue × CborValue) → Option Nat
  | [] => rc
  | (k, v) :: rest =>
      match k with
      | .text s =>
          if s = "rc" then
            match v with
            | .int i => get_rc_entries (some (u32_cast i)) rest
            | _ => get_rc_entries rc rest
          else get_rc_entries rc rest
      | _ => get_rc_entries rc rest

/-- Extraction of the result code, `get_rc` (`image.rs:18-33`). -/
def get_rc (body : CborValue) : Option Nat :=
  match body with
  | .map entries => get_rc_entries none entries
  | _ => none

/-- The result-code gate shared by `erase` (`image.rs:72-76`) and `test`
(`image.rs:100-104`): only a present, nonzero `rc` is an error
(`bail!("Error from device: {}", rc)`); an absent `rc` is success. -/
def rc_gate (body : CborValue) : Option String :=
  match get_rc body with
  | some rc => if rc ≠ 0 then some "Error from device" else none
  | none => none

/-- Body scan inlined in `reset` (`default.rs:40-55`): fail on the first
`"rc"` entry holding a nonzero integer; everything else is ignored. -/
def reset_rc_entries : List (CborValue × CborValue) → Option String
  | [] => none
  | (k, v) :: rest =>
      match k with
      | .text s =>
          if s = "rc" then
            match v with
            | .int i => if i ≠ 0 then some "rc nonzero" else reset_rc_entries rest
            | _ => reset_rc_entries rest
          else reset_rc_entries rest
      | _ => reset_rc_entries rest

/-- The result-code check of `reset` (`default.rs:40-55`); a non-map body
is skipped entirely and the operation succeeds. -/
def reset_rc_check (body : CborValue) : Option String :=
  match body with
  | .map entries => reset_rc_entries entries
  | _ => none

/-- Whether a body is a map containing at least one `"rc"` key with an
integer value. -/
def has_rc_int : CborValue → Bool
  | .map entries =>
      entries.any (fun kv =>
        match kv with
        | (.text s, .int _) => s = "rc"
        | _ => false)
  | _ => false

/-! ## SMP client sequence discipline (`transport.rs`) -/

/-- Outcome of `transport_impl.transceive_raw` as observed by
`SmpTransport::transceive` (`transport.rs:75-89`): an
`ErrTooLargeChunk` rejection, any other error, or a response frame. -/
inductive RawResult where
  | tooLarge (reduce : Nat)
  | otherErr (msg : String)
  | ok (rsp : List Nat)

/-- The sequence-counter update of `SmpTransport::transceive`
(`transport.rs:75-89`): `seq_id` is a `u8`, advanced with
`wrapping_add(1)` on success and on every error except the
`ErrTooLargeChunk` rejection, which leaves it unchanged. -/
def transceive_seq (seq : Nat) (r : RawResult) : Nat :=
  match r with
  | .tooLarge _ => seq
  | .otherErr _ => (seq + 1) % 256
  | .ok _ => (seq + 1) % 256

/-- Sequence counter after a series of `transceive` calls whose raw
outcomes are `rs`. -/
def seq_after (seq : Nat) (rs : List RawResult) : Nat :=
  rs.foldl transceive_seq seq

/-! ## Serial transport MTU policy (`transport_serial.rs:190-229`) -/

/-- Result of the serial `transceive_raw` up to the wire: either the
pre-send MTU rejection, or the frame that is handed to
`serial_transceive` for writing. -/
inductive RawSendResult where
  | tooLargeChunk (reduce : Nat)
  | sent (frame : List Nat)
deriving DecidableEq

/-- Pre-send MTU policy of `SerialTransport::transceive_raw`
(`transport_serial.rs:217-229`): encode the request into the serial
frame; if the framed block (markers and newlines included) exceeds the
configured `mtu`, return `ErrTooLargeChunk((overflow) * 3 / 4 + 3)`
without sending; otherwise pass the frame to the port. -/
def serial_transceive_raw (mtu linelength : Nat) (req_frame : List Nat) : RawSendResult :=
  let frame := encode_request linelength req_frame
  if frame.length > mtu then .tooLargeChunk ((frame.length - mtu) * 3 / 4 + 3)
  else .sent frame

/-- Configuration record `SerialSpecs` (`transport_serial.rs:16-24`). -/
structure SerialSpecs where
  device : String
  initial_timeout_s : Nat
  subsequent_timeout_ms : Nat
  nb_retry : Nat
  linelength : Nat
  mtu : Nat
  baudrate : Nat

/-- Advertised MTU of the serial transport,
`SmpTransportImpl::mtu for SerialTransport` (`transport_serial.rs:208-210`):
`self.mtu * 3 / 4`. -/
def serial_transport_mtu (mtu : Nat) : Nat := mtu * 3 / 4

/-- Initial soft cap on the body bytes per chunk in `upload`
(`image.rs:170`): `let mut try_length = specs.mtu`. -/
def upload_initial_try_length (specs : SerialSpecs) : Nat := specs.mtu

/-! ## Image upload pipeline (`image.rs:132-301`) -/

/-- Upload request struct; the field names are those used at the
construction sites `image.rs:182-200` (the struct itself lives in the
missing `nmp_hdr.rs`; per spec §3 the optional fields are omitted from
the CBOR map when `None`). -/
structure ImageUploadReq where
  image_num : Nat
  off : Nat
  len : Option Nat
  data_sha : Option (List Nat)
  upgrade : Option Bool
  data : List Nat

/-- Chunk-request construction (`image.rs:176-200`): clamp `try_length`
to the remaining bytes, slice the chunk, and include `len` and
`data_sha` exactly when `off == 0`.  The SHA-256 function itself is an
external library call and is passed in abstractly. -/
def mk_upload_req (sha256 : List Nat → List Nat) (fileData : List Nat)
    (slot off try_length : Nat) : ImageUploadReq :=
  let tl := if off + try_length > fileData.length then fileData.length - off else try_length
  let chunk := (fileData.drop off).take tl
  if off = 0 then
    { image_num := slot, off := off, len := some fileData.length,
      data_sha := some (sha256 fileData), upgrade := none, data := chunk }
  else
    { image_num := slot, off := off, len := none, data_sha := none,
      upgrade := none, data := chunk }

/-- Mutable state of the upload loops (`image.rs:163-171`): the current
offset, the offset at which the current outer chunk started
(`off_start`, `image.rs:169`), the soft cap `try_length`, the two block
counters, and the per-chunk retry budget. -/
structure UploadState where
  off : Nat
  off_start : Nat
  try_length : Nat
  sent_blocks : Nat
  confirmed_blocks : Nat
  nb_retry : Nat
deriving DecidableEq

/-- Unsigned machine subtraction: `none` models the Rust `usize`
underflow (a panic in debug builds, a wrap in release builds). -/
def usizeSub (a b : Nat) : Option Nat := if b ≤ a then some (a - b) else none

/-- Outcome of `port.transceive` as dispatched by the upload inner loop
(`image.rs:205-236`): a timeout, an `ErrTooLargeChunk` rejection, any
other error, or a parsed reply. -/
inductive TransceiveOutcome where
  | timeout
  | tooLargeChunk (reduce : Nat)
  | otherError (msg : String)
  | ok (reqHdr rspHdr : NmpHdr) (body : CborValue)

/-- Result of one upload chunk attempt: retry the inner loop, finish the
outer iteration with a new state, fail with an error message, or hit the
modelled `usize` underflow. -/
inductive UploadStep where
  | retry (st : UploadState)
  | success (st : UploadState)
  | fail (msg : String)
  | panicked
deriving DecidableEq

/-- Body scan of the upload success path (`image.rs:247-265`): fail on a
nonzero integer `"rc"`, record the last integer `"off"` (cast `as
usize`); other entries are ignored. -/
def upload_scan_entries (off : Nat) : List (CborValue × CborValue) → Except String Nat
  | [] => .ok off
  | (k, v) :: rest =>
      match k with
      | .text s =>
          if s = "rc" then
            match v with
            | .int i =>
                if i ≠ 0 then .error "rc nonzero" else upload_scan_entries off rest
            | _ => upload_scan_entries off rest
          else if s = "off" then
            match v with
            | .int i => upload_scan_entries (usize_cast i) rest
            | _ => upload_scan_entries off rest
          else upload_scan_entries off rest
      | _ => upload_scan_entries off rest

/-- Result-code / offset extraction from an upload reply
(`image.rs:247-265`); a non-map body leaves the offset unchanged. -/
def upload_scan (off : Nat) (body : CborValue) : Except String Nat :=
  match body with
  | .map entries => upload_scan_entries off entries
  | _ => .ok off

/-- One chunk attempt of the upload loop (`image.rs:204-273`):
`sent_blocks += 1`, dispatch on the transceive outcome —
timeout retry (`image.rs:208-216`), the `TooLargeChunk` branch
(`image.rs:217-232`, with the `usize` subtraction made explicit),
fatal propagation (`image.rs:233-235`), or the success path
(envelope check, body scan, `confirmed_blocks += 1`, and the
`off_start == off` no-progress check of `image.rs:270-273`). -/
def upload_attempt (st : UploadState) (outcome : TransceiveOutcome) : UploadStep :=
  let st1 : UploadState := { st with sent_blocks := st.sent_blocks + 1 }
  match outcome with
  | .timeout =>
      if st1.nb_retry = 0 then .fail "Operation timed out"
      else .retry { st1 with nb_retry := st1.nb_retry - 1,
                             sent_blocks := st1.sent_blocks - 1 }
  | .tooLargeChunk reduce =>
      if reduce > st1.try_length then .fail "MTU too small"
      else
        match usizeSub st1.try_length (reduce * 3 / 4 + 3) with
        | some t => .retry { st1 with try_length := t,
                                      sent_blocks := st1.sent_blocks - 1 }
        | none => .panicked
  | .otherError msg => .fail msg
  | .ok reqHdr rspHdr body =>
      if check_answer reqHdr rspHdr then
        match upload_scan st1.off body with
        | .error msg => .fail msg
        | .ok newOff =>
            if st1.off_start = newOff then .fail "wrong offset received"
            else .success { st1 with off := newOff,
                                     confirmed_blocks := st1.confirmed_blocks + 1 }
      else .fail "wrong answer types"

/-! ## Helper lemmas -/

/-- A list of raw outcomes that are all successful advances the counter
once per element, wrapping at 256. -/
theorem seq_after_all_ok :
    ∀ (rs : List RawResult) (seq : Nat), seq < 256 →
      (∀ r ∈ rs, ∃ x, r = RawResult.ok x) →
      seq_after seq rs = (seq + rs.length) % 256 := by
  intro rs
  induction rs with
  | nil =>
    intro seq hlt _
    simp [seq_after, Nat.mod_eq_of_lt hlt]
  | cons r rs ih =>
    intro seq hlt hall
    obtain ⟨x, hx⟩ := hall r (by simp)
    subst hx
    have h1 : seq_after seq (RawResult.ok x :: rs) = seq_after ((seq + 1) % 256) rs := rfl
    rw [h1, ih ((seq + 1) % 256) (Nat.mod_lt _ (by omega))
      (fun r hr => hall r (by simp [hr]))]
    simp only [List.length_cons]
    omega

/-- Entries without an integer-valued "rc" key leave the `get_rc`
accumulator unchanged. -/
theorem get_rc_entries_no_rc :
    ∀ (es : List (CborValue × CborValue)) (acc : Option Nat),
      (∀ kv ∈ es, (match kv with
        | (CborValue.text s, CborValue.int _) => s = "rc"
        | _ => false) = false) →
      get_rc_entries acc es = acc := by
  intro es
  induction es with
  | nil => intro acc _; rfl
  | cons kv rest ih =>
    intro acc hall
    obtain ⟨k, v⟩ := kv
    have hkv := hall (k, v) (by simp)
    have hrest : ∀ kv ∈ rest, (match kv with
        | (CborValue.text s, CborValue.int _) => s = "rc"
        | _ => false) = false := fun kv h => hall kv (by simp [h])
    cases k with
    | text s =>
      by_cases hs : s = "rc"
      · cases v with
        | int i => simp [hs] at hkv
        | text t => simp [get_rc_entries, hs, ih _ hrest]
        | bytes b => simp [get_rc_entries, hs, ih _ hrest]
        | boolean b => simp [get_rc_entries, hs, ih _ hrest]
        | null => simp [get_rc_entries, hs, ih _ hrest]
        | array xs => simp [get_rc_entries, hs, ih _ hrest]
        | map m => simp [get_rc_entries, hs, ih _ hrest]
      · simp [get_rc_entries, hs, ih _ hrest]
    | int i => simp [get_rc_entries, ih _ hrest]
    | bytes b => simp [get_rc_entries, ih _ hrest]
    | boolean b => simp [get_rc_entries, ih _ hrest]
    | null => simp [get_rc_entries, ih _ hrest]
    | array xs => simp [get_rc_entries, ih _ hrest]
    | map m => simp [get_rc_entries, ih _ hrest]

/-- Entries without an integer-valued "rc" key pass the `reset` scan. -/
theorem reset_rc_entries_no_rc :
    ∀ (es : List (CborValue × CborValue)),
      (∀ kv ∈ es, (match kv with
        | (CborValue.text s, CborValue.int _) => s = "rc"
        | _ => false) = false) →
      reset_rc_entries es = none := by
  intro es
  induction es with
  | nil => intro _; rfl
  | cons kv rest ih =>
    intro hall
    obtain ⟨k, v⟩ := kv
    have hkv := hall (k, v) (by simp)
    have hrest : ∀ kv ∈ rest, (match kv with
        | (CborValue.text s, CborValue.int _) => s = "rc"
        | _ => false) = false := fun kv h => hall kv (by simp [h])
    cases k with
    | text s =>
      by_cases hs : s = "rc"
      · cases v with
        | int i => simp [hs] at hkv
        | text t => simp [reset_rc_entries, hs, ih hrest]
        | bytes b => simp [reset_rc_entries, hs, ih hrest]
        | boolean b => simp [reset_rc_entries, hs, ih hrest]
        | null => simp [reset_rc_entries, hs, ih hrest]
        | array xs => simp [reset_rc_entries, hs, ih hrest]
        | map m => simp [reset_rc_entries, hs, ih hrest]
      · simp [reset_rc_entries, hs, ih hrest]
    | int i => simp [reset_rc_entries, ih hrest]
    | bytes b => simp [reset_rc_entries, ih hrest]
    | boolean b => simp [reset_rc_entries, ih hrest]
    | null => simp [reset_rc_entries, ih hrest]
    | array xs => simp [reset_rc_entries, ih hrest]
    | map m => simp [reset_rc_entries, ih hrest]

/-! ## Claim C1 -/

/-- C1, counterexample: in the upload `TooLargeChunk(4)` branch with
`try_length = 100`, the code sets `try_length` to `100 - (4*3/4+3) = 94`,
not to `100 - 4 = 96` as the claim ("decreased by exactly reduce")
states. -/
theorem C1_too_large_counterexample :
    upload_attempt ⟨0, 0, 100, 3, 2, 5⟩ (TransceiveOutcome.tooLargeChunk 4) =
      UploadStep.retry ⟨0, 0, 94, 3, 2, 5⟩ ∧ (94 : Nat) ≠ 100 - 4 := by
  decide

/-- C1, amended: when `transceive` fails with `TooLargeChunk(reduce)`, if
`reduce > try_length` the upload fails with "MTU too small"; otherwise
`try_length` is decreased by exactly `reduce * 3 / 4 + 3` (not by
`reduce`), the `sent_blocks` increment is undone, and the same chunk
(same offset) is retried without decrementing the retry count
(`image.rs:217-231`). -/
theorem C1_too_large_branch_amended (st : UploadState) (reduce : Nat)
    (h1 : reduce ≤ st.try_length) (h2 : reduce * 3 / 4 + 3 ≤ st.try_length) :
    upload_attempt st (TransceiveOutcome.tooLargeChunk reduce) =
      UploadStep.retry { st with try_length := st.try_length - (reduce * 3 / 4 + 3) } ∧
    st.try_length - (st.try_length - (reduce * 3 / 4 + 3)) = reduce * 3 / 4 + 3 ∧
    (∀ r, st.try_length < r →
      upload_attempt st (TransceiveOutcome.tooLargeChunk r) =
        UploadStep.fail "MTU too small") := by
  refine ⟨?_, by omega, ?_⟩
  · simp only [upload_attempt, usizeSub, if_neg (by omega : ¬ reduce > st.try_length),
      if_pos h2, Nat.add_sub_cancel]
  · intro r hr
    simp only [upload_attempt, if_pos (by omega : r > st.try_length)]

/-- C1, witness: the amended branch evaluated at `try_length = 100`,
`reduce = 4`. -/
theorem C1_too_large_branch_witness :
    (4 ≤ 100 ∧ 4 * 3 / 4 + 3 ≤ 100) ∧
    upload_attempt ⟨7, 7, 100, 3, 2, 5⟩ (TransceiveOutcome.tooLargeChunk 4) =
      UploadStep.retry ⟨7, 7, 94, 3, 2, 5⟩ := by
  refine ⟨⟨by decide, by decide⟩, ?_⟩
  have h := (C1_too_large_branch_amended ⟨7, 7, 100, 3, 2, 5⟩ 4 (by decide) (by decide)).1
  exact h.trans (by decide)

/-! ## Claim C2 -/

/-- C2: the sequence counter of `SmpTransport::transceive` stays put on a
`TooLargeChunk` rejection, advances by one (mod 256) on any other error
and on success, and hence advances by exactly N (mod 256) over N
successful calls (`transport.rs:75-89`). -/
theorem C2_transceive_seq_discipline (seq : Nat) (hseq : seq < 256) :
    (∀ n, transceive_seq seq (RawResult.tooLarge n) = seq) ∧
    (∀ msg, transceive_seq seq (RawResult.otherErr msg) = (seq + 1) % 256) ∧
    (∀ rsp, transceive_seq seq (RawResult.ok rsp) = (seq + 1) % 256) ∧
    (∀ rs : List RawResult, (∀ r ∈ rs, ∃ x, r = RawResult.ok x) →
      seq_after seq rs = (seq + rs.length) % 256) := by
  refine ⟨fun _ => rfl, fun _ => rfl, fun _ => rfl, fun rs hall => ?_⟩
  exact seq_after_all_ok rs seq hseq hall

/-- C2, witness: starting from `seq = 7`, a rejection keeps 7 and two
successful calls reach `(7 + 2) % 256 = 9`. -/
theorem C2_transceive_seq_witness :
    transceive_seq 7 (RawResult.tooLarge 5) = 7 ∧
    seq_after 7 [RawResult.ok [], RawResult.ok [1]] = 9 := by
  obtain ⟨h1, _, _, h4⟩ := C2_transceive_seq_discipline 7 (by decide)
  refine ⟨h1 5, ?_⟩
  have hmem : ∀ r ∈ [RawResult.ok [], RawResult.ok [1]], ∃ x, r = RawResult.ok x := by
    intro r hr
    simp only [List.mem_cons, List.not_mem_nil, or_false] at hr
    rcases hr with h | h
    · exact ⟨[], h⟩
    · exact ⟨[1], h⟩
  rw [h4 [RawResult.ok [], RawResult.ok [1]] hmem]
  decide

/-! ## Claim C4 -/

/-- C4, counterexample: with a configured `mtu = 1024`, `upload`
initialises `try_length` to 1024 (`image.rs:170` reads `specs.mtu`),
while the serial transport's `mtu()` method returns `1024 * 3 / 4 =
768`; the two are different, contradicting the claim that `try_length`
equals the transport's `mtu()`. -/
theorem C4_initial_try_length_counterexample :
    upload_initial_try_length ⟨"", 60, 500, 4, 128, 1024, 115200⟩ = 1024 ∧
    serial_transport_mtu 1024 = 768 ∧ (1024 : Nat) ≠ 768 := by
  decide

/-- C4, amended: `upload` initialises `try_length` to the configured
`specs.mtu` itself, which (for any positive `mtu`) differs from the
serial transport's advertised `mtu()` of `mtu * 3 / 4`
(`image.rs:170`, `transport_serial.rs:208-210`). -/
theorem C4_initial_try_length_amended (specs : SerialSpecs) (h : 1 ≤ specs.mtu) :
    upload_initial_try_length specs = specs.mtu ∧
    upload_initial_try_length specs ≠ serial_transport_mtu specs.mtu := by
  refine ⟨rfl, ?_⟩
  simp only [upload_initial_try_length, serial_transport_mtu]
  omega

/-- C4, witness: the amended statement evaluated at `mtu = 1024`. -/
theorem C4_initial_try_length_witness :
    (1 ≤ 1024) ∧
    upload_initial_try_length ⟨"/dev/ttyUSB0", 60, 500, 4, 128, 1024, 115200⟩ = 1024 := by
  exact ⟨by decide,
    (C4_initial_try_length_amended ⟨"/dev/ttyUSB0", 60, 500, 4, 128, 1024, 115200⟩
      (by decide)).1⟩

/-! ## Claim C5 -/

/-- C5: every chunk request built by `upload` carries `image_num`, `off`
and `data`; the `len` field (the total file length) and the `data_sha`
field (SHA-256 of the whole file) are present if and only if the chunk's
offset is 0 (`image.rs:177-200`). -/
theorem C5_first_chunk_metadata (sha256 : List Nat → List Nat) (fileData : List Nat)
    (slot off try_length : Nat) :
    ((mk_upload_req sha256 fileData slot off try_length).len.isSome ↔ off = 0) ∧
    ((mk_upload_req sha256 fileData slot off try_length).data_sha.isSome ↔ off = 0) ∧
    (off = 0 →
      (mk_upload_req sha256 fileData slot off try_length).len = some fileData.length ∧
      (mk_upload_req sha256 fileData slot off try_length).data_sha =
        some (sha256 fileData)) ∧
    (mk_upload_req sha256 fileData slot off try_length).image_num = slot ∧
    (mk_upload_req sha256 fileData slot off try_length).off = off ∧
    (mk_upload_req sha256 fileData slot off try_length).data =
      (fileData.drop off).take
        (if off + try_length > fileData.length then fileData.length - off
         else try_length) := by
  by_cases h : off = 0 <;> simp [mk_upload_req, h]

/-! ## Claim C6 -/

/-- C6: whenever the serial frame (markers and newlines included) is
longer than the configured `mtu`, `transceive_raw` performs no send and
rejects with `TooLargeChunk(overflow * 3 / 4 + 3)`
(`transport_serial.rs:217-229`). -/
theorem C6_serial_mtu_overflow (mtu linelength : Nat) (req : List Nat)
    (h : (encode_request linelength req).length > mtu) :
    serial_transceive_raw mtu linelength req =
      RawSendResult.tooLargeChunk
        (((encode_request linelength req).length - mtu) * 3 / 4 + 3) ∧
    ∀ f, serial_transceive_raw mtu linelength req ≠ RawSendResult.sent f := by
  constructor
  · simp only [serial_transceive_raw, if_pos h]
  · intro f
    simp only [serial_transceive_raw, if_pos h]
    intro hne
    exact RawSendResult.noConfusion hne

/-- C6, witness: a 3-byte request with `linelength = 32` encodes to a
15-byte frame; against `mtu = 10` the overflow is 5 and the rejection
carries `5 * 3 / 4 + 3 = 6`. -/
theorem C6_serial_mtu_overflow_witness :
    (encode_request 32 [1, 2, 3]).length > 10 ∧
    serial_transceive_raw 10 32 [1, 2, 3] = RawSendResult.tooLargeChunk 6 := by
  refine ⟨by decide, ?_⟩
  have h := (C6_serial_mtu_overflow 10 32 [1, 2, 3] (by decide)).1
  exact h.trans (by decide)

/-! ## Claim C7 -/

/-- C7, counterexample: `reset` receives a reply whose op and group are
correct but whose sequence id is 6 instead of 5; the code fails with
"wrong sequence number" (`default.rs:26-28`), not with the
`WrongAnswerTypes` error the claim prescribes for every mismatch. -/
theorem C7_reset_seq_counterexample :
    reset_env_check ⟨NmpOp.writeRsp, 0, 2, NmpGroup.defaultGroup, 6, 0⟩ 5 =
      some EnvErr.wrongSequence ∧
    some EnvErr.wrongSequence ≠ some EnvErr.wrongAnswerTypes := by
  decide

/-- C7, amended: `erase`, `list`, `test` and `upload` accept a reply iff
seq, group and the Rsp counterpart of the op all match — stated for an
arbitrary request header, which covers the Write/Image envelopes of
`erase`, `test` and `upload` and the Read/Image envelope of `list` — and
report every mismatch as `wrongAnswerTypes`; `reset`, whose request is
Write/Default, accepts iff seq matches, the group is Default (the
request's group) and the op is WriteRsp (the counterpart of Write), but
reports a sequence mismatch as `wrongSequence` and only op/group
mismatches as `wrongAnswerTypes` (`image.rs:35-55`, `default.rs:25-33`). -/
theorem C7_envelope_validation_amended (req rsp : NmpHdr) (reqSeq : Nat) :
    (image_op_env_check req rsp = none ↔
      (rsp.seq = req.seq ∧ rsp.group = req.group ∧ rsp_op_of req.op = some rsp.op)) ∧
    (image_op_env_check req rsp = none ∨
      image_op_env_check req rsp = some EnvErr.wrongAnswerTypes) ∧
    (reset_env_check rsp reqSeq = none ↔
      (rsp.seq = reqSeq ∧ rsp.group = NmpGroup.defaultGroup ∧
        rsp_op_of NmpOp.write = some rsp.op)) ∧
    (rsp.seq ≠ reqSeq → reset_env_check rsp reqSeq = some EnvErr.wrongSequence) ∧
    (rsp.seq = reqSeq → (rsp.op ≠ NmpOp.writeRsp ∨ rsp.group ≠ NmpGroup.defaultGroup) →
      reset_env_check rsp reqSeq = some EnvErr.wrongAnswerTypes) := by
  refine ⟨?_, ?_, ?_, ?_, ?_⟩
  · cases hop : req.op with
    | read =>
      simp only [image_op_env_check, check_answer, hop, rsp_op_of]
      by_cases h1 : rsp.seq = req.seq <;>
        by_cases h2 : rsp.op = NmpOp.readRsp <;>
          by_cases h3 : rsp.group = req.group <;>
            simp [h1, h2, h3] <;> tauto
    | write =>
      simp only [image_op_env_check, check_answer, hop, rsp_op_of]
      by_cases h1 : rsp.seq = req.seq <;>
        by_cases h2 : rsp.op = NmpOp.writeRsp <;>
          by_cases h3 : rsp.group = req.group <;>
            simp [h1, h2, h3] <;> tauto
    | readRsp =>
      simp only [image_op_env_check, check_answer, hop, rsp_op_of]
      by_cases h1 : rsp.seq = req.seq <;> simp [h1]
    | writeRsp =>
      simp only [image_op_env_check, check_answer, hop, rsp_op_of]
      by_cases h1 : rsp.seq = req.seq <;> simp [h1]
  · simp only [image_op_env_check]
    by_cases h : check_answer req rsp <;> simp [h]
  · simp only [reset_env_check, rsp_op_of]
    by_cases h1 : rsp.seq = reqSeq <;>
      by_cases h2 : rsp.op = NmpOp.writeRsp <;>
        by_cases h3 : rsp.group = NmpGroup.defaultGroup <;>
          simp [h1, h2, h3] <;> tauto
  · intro h
    simp only [reset_env_check, if_pos h]
  · intro h1 h2
    simp only [reset_env_check,
      if_neg (show ¬ rsp.seq ≠ reqSeq from fun hc => hc h1), if_pos h2]

/-- C7, witness: a matching Write/Image exchange (as sent by `erase`,
`test` and `upload`), a matching Read/Image exchange (as sent by `list`)
and a matching Write/Default reset exchange all pass their checks. -/
theorem C7_envelope_validation_witness :
    image_op_env_check ⟨NmpOp.write, 0, 6, NmpGroup.image, 21, 5⟩
      ⟨NmpOp.writeRsp, 0, 4, NmpGroup.image, 21, 5⟩ = none ∧
    image_op_env_check ⟨NmpOp.read, 0, 1, NmpGroup.image, 12, 0⟩
      ⟨NmpOp.readRsp, 0, 40, NmpGroup.image, 12, 0⟩ = none ∧
    reset_env_check ⟨NmpOp.writeRsp, 0, 5, NmpGroup.defaultGroup, 9, 0⟩ 9 = none := by
  refine ⟨?_, ?_, ?_⟩
  · exact (C7_envelope_validation_amended ⟨NmpOp.write, 0, 6, NmpGroup.image, 21, 5⟩
      ⟨NmpOp.writeRsp, 0, 4, NmpGroup.image, 21, 5⟩ 0).1.mpr ⟨rfl, rfl, rfl⟩
  · exact (C7_envelope_validation_amended ⟨NmpOp.read, 0, 1, NmpGroup.image, 12, 0⟩
      ⟨NmpOp.readRsp, 0, 40, NmpGroup.image, 12, 0⟩ 0).1.mpr ⟨rfl, rfl, rfl⟩
  · exact (C7_envelope_validation_amended ⟨NmpOp.write, 0, 0, NmpGroup.defaultGroup, 9, 0⟩
      ⟨NmpOp.writeRsp, 0, 5, NmpGroup.defaultGroup, 9, 0⟩ 9).2.2.1.mpr ⟨rfl, rfl, rfl⟩

/-! ## Claim C8 -/

/-- C8, counterexample: a successful reply moves the offset from 100 back
to 50 — it "did not advance beyond the offset at which the chunk's
transfer began" — yet `upload` does not fail with `NoProgress`: the
check at `image.rs:271` only fires on equality, so the attempt succeeds
and the transfer continues from offset 50. -/
theorem C8_no_progress_counterexample :
    upload_attempt ⟨100, 100, 512, 3, 2, 5⟩
      (TransceiveOutcome.ok ⟨NmpOp.write, 0, 9, NmpGroup.image, 3, 1⟩
        ⟨NmpOp.writeRsp, 0, 9, NmpGroup.image, 3, 1⟩
        (CborValue.map [(CborValue.text "off", CborValue.int 50)])) =
      UploadStep.success ⟨50, 100, 512, 4, 3, 5⟩ ∧ 50 < 100 := by
  constructor
  · rfl
  · decide

/-- C8, amended: after a successful, validated reply, `upload` fails with
`NoProgress` ("wrong offset received") iff the resulting offset is
exactly equal to the offset at which the chunk's transfer began; a
strictly smaller offset is accepted and the transfer continues from it
(`image.rs:247-273`). -/
theorem C8_no_progress_amended (st : UploadState) (reqHdr rspHdr : NmpHdr)
    (body : CborValue) (newOff : Nat)
    (hchk : check_answer reqHdr rspHdr = true)
    (hscan : upload_scan st.off body = Except.ok newOff) :
    (upload_attempt st (TransceiveOutcome.ok reqHdr rspHdr body) =
        UploadStep.fail "wrong offset received" ↔ newOff = st.off_start) ∧
    (newOff ≠ st.off_start →
      upload_attempt st (TransceiveOutcome.ok reqHdr rspHdr body) =
        UploadStep.success { st with off := newOff,
                                     sent_blocks := st.sent_blocks + 1,
                                     confirmed_blocks := st.confirmed_blocks + 1 }) := by
  have hoff : ({ st with sent_blocks := st.sent_blocks + 1 } : UploadState).off =
      st.off := rfl
  constructor
  · simp only [upload_attempt, hchk, if_true, hoff, hscan]
    by_cases h : st.off_start = newOff
    · simp [h]
    · simp only [if_neg h]
      constructor
      · intro hcon
        exact absurd hcon (by simp)
      · intro heq
        exact absurd heq.symm h
  · intro hne
    simp only [upload_attempt, hchk, if_true, hoff, hscan]
    exact if_neg (fun h => hne h.symm)

/-- C8, witness: the amended statement at a reply advancing the offset
from 200 to 300. -/
theorem C8_no_progress_witness :
    check_answer ⟨NmpOp.write, 0, 9, NmpGroup.image, 4, 1⟩
      ⟨NmpOp.writeRsp, 0, 9, NmpGroup.image, 4, 1⟩ = true ∧
    upload_scan 200 (CborValue.map [(CborValue.text "off", CborValue.int 300)]) =
      Except.ok 300 ∧
    upload_attempt ⟨200, 200, 512, 0, 0, 5⟩
      (TransceiveOutcome.ok ⟨NmpOp.write, 0, 9, NmpGroup.image, 4, 1⟩
        ⟨NmpOp.writeRsp, 0, 9, NmpGroup.image, 4, 1⟩
        (CborValue.map [(CborValue.text "off", CborValue.int 300)])) =
      UploadStep.success ⟨300, 200, 512, 1, 1, 5⟩ := by
  refine ⟨rfl, rfl, ?_⟩
  have h := (C8_no_progress_amended ⟨200, 200, 512, 0, 0, 5⟩
    ⟨NmpOp.write, 0, 9, NmpGroup.image, 4, 1⟩
    ⟨NmpOp.writeRsp, 0, 9, NmpGroup.image, 4, 1⟩
    (CborValue.map [(CborValue.text "off", CborValue.int 300)]) 300
    rfl rfl).2 (by decide)
  exact h

/-! ## Claim C9 -/

/-- C9, counterexample: `reduce = 1 ≤ try_length = 1` satisfies the
claim's precondition, yet `try_length - (1 * 3 / 4 + 3) = 1 - 3`
underflows the unsigned subtraction (`image.rs:226`), modelled as the
`panicked` outcome. -/
theorem C9_underflow_counterexample :
    (1 : Nat) ≤ 1 ∧
    upload_attempt ⟨0, 0, 1, 0, 0, 5⟩ (TransceiveOutcome.tooLargeChunk 1) =
      UploadStep.panicked := by
  decide

/-- C9, amended: `reduce ≤ try_length` alone does not rule out underflow
of `try_length - (reduce * 3 / 4 + 3)`; together with `9 ≤ try_length`
it does, and the branch then retries with the decreased value
(`image.rs:219-229`). -/
theorem C9_underflow_guard_amended (st : UploadState) (reduce : Nat)
    (h1 : reduce ≤ st.try_length) (h9 : 9 ≤ st.try_length) :
    upload_attempt st (TransceiveOutcome.tooLargeChunk reduce) =
      UploadStep.retry { st with try_length := st.try_length - (reduce * 3 / 4 + 3) } ∧
    upload_attempt st (TransceiveOutcome.tooLargeChunk reduce) ≠ UploadStep.panicked := by
  have hle : reduce * 3 / 4 + 3 ≤ st.try_length := by omega
  constructor
  · simp only [upload_attempt, usizeSub, if_neg (by omega : ¬ reduce > st.try_length),
      if_pos hle, Nat.add_sub_cancel]
  · simp only [upload_attempt, usizeSub, if_neg (by omega : ¬ reduce > st.try_length),
      if_pos hle]
    intro h
    exact UploadStep.noConfusion h

/-- C9, witness: the amended guard at the boundary `try_length = 9`,
`reduce = 9`, where `9 * 3 / 4 + 3 = 9` exactly. -/
theorem C9_underflow_guard_witness :
    ((9 : Nat) ≤ 9 ∧ (9 : Nat) ≤ 9) ∧
    upload_attempt ⟨0, 0, 9, 0, 0, 5⟩ (TransceiveOutcome.tooLargeChunk 9) =
      UploadStep.retry ⟨0, 0, 0, 0, 0, 5⟩ := by
  refine ⟨⟨le_refl 9, le_refl 9⟩, ?_⟩
  have h := (C9_underflow_guard_amended ⟨0, 0, 9, 0, 0, 5⟩ 9 (by decide) (by decide)).1
  exact h.trans (by decide)

/-! ## Claim C10 -/

/-- C10: when the response map carries no "rc" key with an integer value,
`get_rc` returns `None` and the rc gates of `erase`/`test`
(`image.rs:72-76`, `image.rs:100-104`) and of `reset`
(`default.rs:40-55`) are skipped entirely, so the operations succeed. -/
theorem C10_missing_rc_success (body : CborValue) (h : has_rc_int body = false) :
    get_rc body = none ∧ rc_gate body = none ∧ reset_rc_check body = none := by
  cases body with
  | map entries =>
    simp only [has_rc_int, List.any_eq_false] at h
    have h' : ∀ kv ∈ entries, (match kv with
        | (CborValue.text s, CborValue.int _) => s = "rc"
        | _ => false) = false := by
      intro kv hkv
      have := h kv hkv
      revert this
      rcases kv with ⟨k, v⟩
      cases k <;> cases v <;> simp_all
    have hg : get_rc (CborValue.map entries) = none :=
      get_rc_entries_no_rc entries none h'
    refine ⟨hg, ?_, reset_rc_entries_no_rc entries h'⟩
    simp [rc_gate, hg]
  | int i => exact ⟨rfl, rfl, rfl⟩
  | text s => exact ⟨rfl, rfl, rfl⟩
  | bytes b => exact ⟨rfl, rfl, rfl⟩
  | boolean b => exact ⟨rfl, rfl, rfl⟩
  | null => exact ⟨rfl, rfl, rfl⟩
  | array xs => exact ⟨rfl, rfl, rfl⟩

/-- C10, witness: a reply map carrying only an "off" entry passes all
three gates. -/
theorem C10_missing_rc_witness :
    has_rc_int (CborValue.map [(CborValue.text "off", CborValue.int 32)]) = false ∧
    rc_gate (CborValue.map [(CborValue.text "off", CborValue.int 32)]) = none := by
  refine ⟨by decide, ?_⟩
  exact (C10_missing_rc_success
    (CborValue.map [(CborValue.text "off", CborValue.int 32)]) (by decide)).2.1

/-! ## Base64 lemmas (towards claim C3) -/

/-- Decoding inverts the alphabet on every sextet. -/
theorem b64inv_b64char_fin : ∀ s : Fin 64, b64inv (b64char s.val) = some s.val := by
  decide

/-- Alphabet characters are never the padding byte 61. -/
theorem b64char_ne_61_fin : ∀ s : Fin 64, b64char s.val ≠ 61 := by
  decide

/-- Alphabet characters are never the newline byte 10. -/
theorem b64char_ne_10_fin : ∀ s : Fin 64, b64char s.val ≠ 10 := by
  decide

theorem b64inv_b64char (s : Nat) (h : s < 64) : b64inv (b64char s) = some s :=
  b64inv_b64char_fin ⟨s, h⟩

theorem b64char_ne_61 (s : Nat) (h : s < 64) : b64char s ≠ 61 :=
  b64char_ne_61_fin ⟨s, h⟩

theorem b64char_ne_10 (s : Nat) (h : s < 64) : b64char s ≠ 10 :=
  b64char_ne_10_fin ⟨s, h⟩

/-- Decoding one full 4-character group recovers its three source bytes
and proceeds with the remainder. -/
theorem b64decode_group (a b c : Nat) (ha : a < 256) (hb : b < 256) (hc : c < 256)
    (rest : List Nat) :
    b64decode (b64char (a / 4) :: b64char (a % 4 * 16 + b / 16) ::
        b64char (b % 16 * 4 + c / 64) :: b64char (c % 64) :: rest) =
      Option.map (fun tl => a :: b :: c :: tl) (b64decode rest) := by
  have h1 : a / 4 < 64 := by omega
  have h2 : a % 4 * 16 + b / 16 < 64 := by omega
  have h3 : b % 16 * 4 + c / 64 < 64 := by omega
  have h4 : c % 64 < 64 := by omega
  have ea : a / 4 * 4 + (a % 4 * 16 + b / 16) / 16 = a := by omega
  have eb : (a % 4 * 16 + b / 16) % 16 * 16 + (b % 16 * 4 + c / 64) / 4 = b := by omega
  have ec : (b % 16 * 4 + c / 64) % 4 * 64 + c % 64 = c := by omega
  simp only [b64decode, b64inv_b64char _ h1, b64inv_b64char _ h2,
    b64inv_b64char _ h3, b64inv_b64char _ h4,
    if_neg (b64char_ne_61 _ h3), if_neg (b64char_ne_61 _ h4)]
  cases hrest : b64decode rest with
  | none => rfl
  | some tl => simp [ea, eb, ec]

/-- Base64 round trip: decoding the encoding of any byte list returns it. -/
theorem b64_roundtrip : ∀ l : List Nat, (∀ x ∈ l, x < 256) →
    b64decode (b64encode l) = some l
  | [] => fun _ => rfl
  | [a] => fun h => by
      have ha : a < 256 := h a (by simp)
      have h1 : a / 4 < 64 := by omega
      have h2 : a % 4 * 16 < 64 := by omega
      simp only [b64encode, b64decode, b64inv_b64char _ h1, b64inv_b64char _ h2,
        if_true, true_and]
      rw [if_pos (show a % 4 * 16 % 16 = 0 by omega),
        show a / 4 * 4 + a % 4 * 16 / 16 = a by omega]
  | [a, b] => fun h => by
      have ha : a < 256 := h a (by simp)
      have hb : b < 256 := h b (by simp)
      have h1 : a / 4 < 64 := by omega
      have h2 : a % 4 * 16 + b / 16 < 64 := by omega
      have h3 : b % 16 * 4 < 64 := by omega
      simp only [b64encode, b64decode, b64inv_b64char _ h1, b64inv_b64char _ h2,
        b64inv_b64char _ h3, if_neg (b64char_ne_61 _ h3), if_true, true_and]
      rw [if_pos (show b % 16 * 4 % 4 = 0 by omega),
        show a / 4 * 4 + (a % 4 * 16 + b / 16) / 16 = a by omega,
        show (a % 4 * 16 + b / 16) % 16 * 16 + b % 16 * 4 / 4 = b by omega]
  | a :: b :: c :: rest => fun h => by
      have ha : a < 256 := h a (by simp)
      have hb : b < 256 := h b (by simp)
      have hc : c < 256 := h c (by simp)
      have hrest : ∀ x ∈ rest, x < 256 := fun x hx => h x (by simp [hx])
      show b64decode (b64char (a / 4) :: b64char (a % 4 * 16 + b / 16) ::
        b64char (b % 16 * 4 + c / 64) :: b64char (c % 64) :: b64encode rest) = _
      rw [b64decode_group a b c ha hb hc (b64encode rest),
        b64_roundtrip rest hrest]
      rfl

/-- Encoding distributes over an append at a 3-byte boundary. -/
theorem b64encode_append : ∀ l₁ l₂ : List Nat, l₁.length % 3 = 0 →
    b64encode (l₁ ++ l₂) = b64encode l₁ ++ b64encode l₂
  | [], _ => fun _ => rfl
  | [a], _ => fun h => by simp at h
  | [a, b], _ => fun h => by simp at h
  | a :: b :: c :: rest, l₂ => fun h => by
      have hr : rest.length % 3 = 0 := by
        simp only [List.length_cons] at h
        omega
      show b64char (a / 4) :: b64char (a % 4 * 16 + b / 16) ::
          b64char (b % 16 * 4 + c / 64) :: b64char (c % 64) ::
            b64encode (rest ++ l₂) = _
      rw [b64encode_append rest l₂ hr]
      rfl

/-- Length of a base64 encoding: four characters per started 3-byte
group. -/
theorem b64encode_length : ∀ l : List Nat,
    (b64encode l).length = (l.length + 2) / 3 * 4
  | [] => rfl
  | [_] => by simp [b64encode]
  | [_, _] => by simp [b64encode]
  | a :: b :: c :: rest => by
      show (b64char (a / 4) :: b64char (a % 4 * 16 + b / 16) ::
        b64char (b % 16 * 4 + c / 64) :: b64char (c % 64) ::
          b64encode rest).length = _
      simp only [List.length_cons, b64encode_length rest]
      omega

/-- Decoding a 4-character-aligned prefix of an encoding recovers the
corresponding 3-byte-aligned prefix of the source. -/
theorem b64decode_take : ∀ (k : Nat) (l : List Nat), (∀ x ∈ l, x < 256) →
    3 * k ≤ l.length →
    b64decode ((b64encode l).take (4 * k)) = some (l.take (3 * k)) := by
  intro k
  induction k with
  | zero =>
    intro l _ _
    simp only [Nat.mul_zero, List.take_zero]
    rfl
  | succ k ih =>
    intro l hl hk
    match l, hk with
    | a :: b :: c :: rest, hk =>
      have ha : a < 256 := hl a (by simp)
      have hb : b < 256 := hl b (by simp)
      have hc : c < 256 := hl c (by simp)
      have hrest : ∀ x ∈ rest, x < 256 := fun x hx => hl x (by simp [hx])
      have hk' : 3 * k ≤ rest.length := by
        simp only [List.length_cons] at hk
        omega
      have henc : b64encode (a :: b :: c :: rest) =
          b64char (a / 4) :: b64char (a % 4 * 16 + b / 16) ::
            b64char (b % 16 * 4 + c / 64) :: b64char (c % 64) :: b64encode rest := rfl
      rw [henc, show 4 * (k + 1) = (4 * k) + 1 + 1 + 1 + 1 by omega]
      simp only [List.take_succ_cons]
      rw [b64decode_group a b c ha hb hc _, ih rest hrest hk']
      rw [show 3 * (k + 1) = (3 * k) + 1 + 1 + 1 by omega]
      simp only [List.take_succ_cons]
      rfl

/-- Base64 encodings never contain the newline byte 10. -/
theorem b64encode_ne_10 : ∀ l : List Nat, (∀ x ∈ l, x < 256) →
    ∀ y ∈ b64encode l, y ≠ 10
  | [] => by intro _ y hy; simp [b64encode] at hy
  | [a] => by
      intro h y hy
      have ha : a < 256 := h a (by simp)
      simp only [b64encode, List.mem_cons, List.not_mem_nil, or_false] at hy
      rcases hy with h1 | h1 | h1 | h1 <;> subst h1
      · exact b64char_ne_10 _ (by omega)
      · exact b64char_ne_10 _ (by omega)
      · omega
      · omega
  | [a, b] => by
      intro h y hy
      have ha : a < 256 := h a (by simp)
      have hb : b < 256 := h b (by simp)
      simp only [b64encode, List.mem_cons, List.not_mem_nil, or_false] at hy
      rcases hy with h1 | h1 | h1 | h1 <;> subst h1
      · exact b64char_ne_10 _ (by omega)
      · exact b64char_ne_10 _ (by omega)
      · exact b64char_ne_10 _ (by omega)
      · omega
  | a :: b :: c :: rest => by
      intro h y hy
      have ha : a < 256 := h a (by simp)
      have hb : b < 256 := h b (by simp)
      have hc : c < 256 := h c (by simp)
      have hrest : ∀ x ∈ rest, x < 256 := fun x hx => h x (by simp [hx])
      have henc : b64encode (a :: b :: c :: rest) =
          b64char (a / 4) :: b64char (a % 4 * 16 + b / 16) ::
            b64char (b % 16 * 4 + c / 64) :: b64char (c % 64) :: b64encode rest := rfl
      rw [henc] at hy
      simp only [List.mem_cons] at hy
      rcases hy with h1 | h1 | h1 | h1 | h1
      · exact h1 ▸ b64char_ne_10 _ (by omega)
      · exact h1 ▸ b64char_ne_10 _ (by omega)
      · exact h1 ▸ b64char_ne_10 _ (by omega)
      · exact h1 ▸ b64char_ne_10 _ (by omega)
      · exact b64encode_ne_10 rest hrest y h1

/-! ## Wire-reader helper lemmas -/

/-- Reading a line out of "body ++ newline ++ tail" returns exactly the
body and the tail when the body is newline-free. -/
theorem takeLine_append : ∀ line rest : List Nat, (∀ y ∈ line, y ≠ 10) →
    takeLine (line ++ 10 :: rest) = some (line, rest)
  | [], rest => fun _ => by simp [takeLine]
  | b :: line, rest => fun h => by
      have hb : b ≠ 10 := h b (by simp)
      have hline : ∀ y ∈ line, y ≠ 10 := fun y hy => h y (by simp [hy])
      simp only [List.cons_append, takeLine, if_neg hb, List.append_eq]
      rw [takeLine_append line rest hline]

/-- Both bytes of a big-endian `u16` are bytes. -/
theorem be16_lt (n : Nat) : ∀ y ∈ be16 n, y < 256 := by
  intro y hy
  simp only [be16, List.mem_cons, List.not_mem_nil, or_false] at hy
  rcases hy with h | h <;> subst h <;> omega

/-- Reading back a written big-endian `u16` (for values below 2^16). -/
theorem read_u16_be16_append (n : Nat) (h : n < 65536) (rest : List Nat) :
    read_u16 (be16 n ++ rest) = n := by
  simp only [be16, List.cons_append, List.nil_append, read_u16]
  omega

/-- Reading back a written big-endian `u16`, bare form. -/
theorem read_u16_be16 (n : Nat) (h : n < 65536) : read_u16 (be16 n) = n := by
  simp only [be16, read_u16]
  omega

/-- The leading `u16` only depends on the first two bytes. -/
theorem read_u16_take (l : List Nat) (k : Nat) (h : 2 ≤ k) :
    read_u16 (l.take k) = read_u16 l := by
  obtain ⟨k', rfl⟩ : ∃ k', k = k' + 2 := ⟨k - 2, by omega⟩
  match l with
  | [] => simp [read_u16]
  | [a] => simp [read_u16, List.take]
  | a :: b :: rest =>
      show read_u16 (a :: b :: rest.take k') = read_u16 (a :: b :: rest)
      rfl

/-- One CRC16 round stays within 16 bits. -/
theorem crc16_round_le (c : Nat) : crc16_round c ≤ 65535 := by
  unfold crc16_round
  split <;> exact Nat.and_le_right

/-- Feeding a byte into the CRC state stays within 16 bits. -/
theorem crc16_update_le (c b : Nat) : crc16_update c b ≤ 65535 := by
  show crc16_round (crc16_round (crc16_round (crc16_round (crc16_round (crc16_round
    (crc16_round (crc16_round ((c ^^^ b <<< 8) &&& 65535)))))))) ≤ 65535
  exact crc16_round_le _

/-- Folding CRC updates preserves the 16-bit bound. -/
theorem crc16_foldl_le : ∀ (l : List Nat) (c : Nat), c ≤ 65535 →
    l.foldl crc16_update c ≤ 65535
  | [], _ => fun h => h
  | b :: rest, c => fun _ =>
      crc16_foldl_le rest (crc16_update c b) (crc16_update_le c b)

/-- A CRC16 value always fits in a `u16`. -/
theorem crc16_le (l : List Nat) : crc16 l ≤ 65535 :=
  crc16_foldl_le l 0 (by omega)

/-! ## Claim C3 and the serial codec round trip -/

/-- Chunking an empty base64 text emits nothing. -/
theorem chunkLines_nil (fuel c : Nat) (first : Bool) : chunkLines fuel c first [] = [] := by
  cases fuel <;> rfl

/-- One iteration of the line-chunking loop, for a nonempty remainder
and sufficient fuel. -/
theorem chunkLines_step (fuel c : Nat) (first : Bool) (l : List Nat)
    (hne : l ≠ []) (hfuel : 1 ≤ fuel) :
    chunkLines fuel c first l =
      (if first then [6, 9] else [4, 20]) ++
        (l.take c ++ (10 :: chunkLines (fuel - 1) c false (l.drop c))) := by
  obtain ⟨f, rfl⟩ : ∃ f, fuel = f + 1 := ⟨fuel - 1, by omega⟩
  cases l with
  | nil => exact absurd rfl hne
  | cons x xs =>
    show (if first then [6, 9] else [4, 20]) ++ (x :: xs).take c ++ [10] ++
        chunkLines f c false ((x :: xs).drop c) = _
    simp [List.append_assoc]

/-- The emitted stream is at least as long as the base64 text (each
character appears exactly once, plus markers and newlines). -/
theorem chunkLines_length_ge : ∀ (fuel c : Nat) (first : Bool) (l : List Nat),
    l.length ≤ fuel → 1 ≤ c → l.length ≤ (chunkLines fuel c first l).length := by
  intro fuel
  induction fuel with
  | zero =>
    intro c first l h hc
    have hnil : l = [] := List.length_eq_zero.mp (by omega)
    simp [hnil, chunkLines_nil]
  | succ f ih =>
    intro c first l h hc
    cases l with
    | nil => simp [chunkLines_nil]
    | cons x xs =>
      simp only [List.length_cons] at h
      rw [chunkLines_step (f + 1) c first (x :: xs) (by simp) (by omega)]
      simp only [Nat.add_sub_cancel]
      have hrec := ih c false ((x :: xs).drop c)
        (by simp only [List.length_drop, List.length_cons]; omega) hc
      have hm : (if first then [6, 9] else [4, 20] : List Nat).length = 2 := by
        cases first <;> rfl
      simp only [List.length_append, hm, List.length_take, List.length_drop,
        List.length_cons] at hrec ⊢
      omega

/-- One unfolding of the read loop on a stream with two marker bytes
available. -/
theorem readFrame_step (fuel : Nat) (m1 m2 : Nat) (rest acc : List Nat) (elen : Nat) :
    readFrame (fuel + 1) (m1 :: m2 :: rest) acc elen =
      (if (if acc.isEmpty then m1 = 6 ∧ m2 = 9 else m1 = 4 ∧ m2 = 20) then
        match takeLine rest with
        | some (line, rest') =>
          match b64decode (acc ++ line) with
          | some decoded =>
            if elen = 0 ∧ decoded.length < 2 then none
            else
              if (if elen = 0 then read_u16 decoded else elen) ≤ decoded.length - 2 then
                finalizeFrame decoded
              else readFrame fuel rest' (acc ++ line) (if elen = 0 then read_u16 decoded else elen)
          | none => none
        | none => none
      else none) := rfl

/-- Processing one full line of the read loop: with a matching marker, a
newline-terminated line and a decodable accumulation, the loop either
stops (length condition reached) or recurses on the remaining stream. -/
theorem readFrame_advance (f : Nat) (m1 m2 : Nat) (line crest acc : List Nat) (elen : Nat)
    (hmark : if acc.isEmpty then m1 = 6 ∧ m2 = 9 else m1 = 4 ∧ m2 = 20)
    (hline : ∀ y ∈ line, y ≠ 10)
    (decoded : List Nat) (hdec : b64decode (acc ++ line) = some decoded)
    (hne2 : ¬(elen = 0 ∧ decoded.length < 2)) :
    readFrame (f + 1) (m1 :: m2 :: (line ++ 10 :: crest)) acc elen =
      (if (if elen = 0 then read_u16 decoded else elen) ≤ decoded.length - 2 then
        finalizeFrame decoded
      else readFrame f crest (acc ++ line) (if elen = 0 then read_u16 decoded else elen)) := by
  rw [readFrame_step, if_pos hmark, takeLine_append line crest hline]
  simp only [hdec, if_neg hne2]

/-- The final length and checksum verification accepts exactly the framed
bytes produced by the encoder and strips the length prefix and CRC. -/
theorem finalizeFrame_framed (R : List Nat) (hlen : R.length ≤ 65533) :
    finalizeFrame (be16 (R.length + 2) ++ R ++ be16 (crc16 R)) = some R := by
  have hck : crc16 R ≤ 65535 := crc16_le R
  obtain ⟨a1, a2, ha⟩ : ∃ a1 a2, be16 (R.length + 2) = [a1, a2] := ⟨_, _, rfl⟩
  obtain ⟨k1, k2, hk⟩ : ∃ k1 k2, be16 (crc16 R) = [k1, k2] := ⟨_, _, rfl⟩
  have hcons : be16 (R.length + 2) ++ R ++ be16 (crc16 R) =
      a1 :: a2 :: (R ++ [k1, k2]) := by
    rw [ha, hk]
    simp
  have hlen2 : (a1 :: a2 :: (R ++ [k1, k2])).length = R.length + 4 := by
    simp
  have hread : read_u16 (a1 :: a2 :: (R ++ [k1, k2])) = R.length + 2 := by
    have h : a1 :: a2 :: (R ++ [k1, k2]) = be16 (R.length + 2) ++ (R ++ [k1, k2]) := by
      rw [ha]
      rfl
    rw [h, read_u16_be16_append _ (by omega)]
  have hdropck : List.drop (R.length + 4 - 2) (a1 :: a2 :: (R ++ [k1, k2])) = [k1, k2] := by
    rw [show R.length + 4 - 2 = R.length + 1 + 1 from by omega,
      List.drop_succ_cons, List.drop_succ_cons, List.drop_left]
  have hreadck : read_u16 [k1, k2] = crc16 R := by
    rw [← hk, read_u16_be16 _ (by omega)]
  have htake : List.take (R.length + 4 - 4) (R ++ [k1, k2]) = R := by
    rw [show R.length + 4 - 4 = R.length from by omega, List.take_left]
  rw [hcons]
  simp only [finalizeFrame, hread, hlen2, List.drop_succ_cons, List.drop_zero,
    hdropck, hreadck, htake]
  rw [if_neg (by omega : ¬ R.length + 4 < 2),
    if_neg (show ¬ R.length + 2 ≠ R.length + 4 - 2 from by omega),
    if_neg (by omega : ¬ R.length + 4 < 4),
    if_neg (show ¬ crc16 R ≠ crc16 R from by omega)]

/-- Main invariant of the read loop: if the first `m` characters of the
base64 text `B` (a 4-aligned strict prefix) have already been
accumulated and the expected length is set accordingly, consuming the
lines that chunk the remainder of `B` yields exactly the request bytes
`R`.  Requires a line width `c = linelength - 4` that is a positive
multiple of 4, so that every intermediate accumulation is 4-aligned and
base64-decodable. -/
theorem readFrame_loop (R framed B : List Nat) (c : Nat)
    (hbytes : ∀ x ∈ R, x < 256) (hlen : R.length ≤ 65533)
    (hframed : framed = be16 (R.length + 2) ++ R ++ be16 (crc16 R))
    (hB : B = b64encode framed) (hc : 28 ≤ c) (hc4 : c % 4 = 0) :
    ∀ (fuelR m fuelC : Nat), m % 4 = 0 → m < B.length →
      B.length - m ≤ fuelR → B.length - m ≤ fuelC →
      readFrame fuelR (chunkLines fuelC c (m == 0) (B.drop m)) (B.take m)
        (if m = 0 then 0 else R.length + 2) = some R := by
  have hfb : ∀ x ∈ framed, x < 256 := by
    intro x hx
    rw [hframed] at hx
    simp only [List.append_assoc, List.mem_append] at hx
    rcases hx with h | h | h
    · exact be16_lt _ x h
    · exact hbytes x h
    · exact be16_lt _ x h
  have hflen : framed.length = R.length + 4 := by
    simp [hframed, be16]
  have hBlen : B.length = (R.length + 6) / 3 * 4 := by
    rw [hB, b64encode_length, hflen]
  have hfread : read_u16 framed = R.length + 2 := by
    rw [hframed, List.append_assoc, read_u16_be16_append _ (by omega)]
  have hBne10 : ∀ y ∈ B, y ≠ 10 := fun y hy => b64encode_ne_10 framed hfb y (hB ▸ hy)
  have hfin : finalizeFrame framed = some R := hframed ▸ finalizeFrame_framed R hlen
  intro fuelR
  induction fuelR with
  | zero =>
    intro m fuelC _ hmB hfr _
    omega
  | succ f ih =>
    intro m fuelC hm4 hmB hfr hfc
    have hrem_ne : B.drop m ≠ [] := by
      intro hcon
      have hL := congrArg List.length hcon
      simp only [List.length_drop, List.length_nil] at hL
      omega
    rw [chunkLines_step fuelC c _ _ hrem_ne (by omega)]
    have hline10 : ∀ y ∈ (B.drop m).take c, y ≠ 10 :=
      fun y hy => hBne10 y (List.drop_subset m B (List.take_subset c _ hy))
    have hacc : B.take m ++ (B.drop m).take c = B.take (m + c) :=
      (List.take_add B m c).symm
    have hmark : if (B.take m).isEmpty then (6 : Nat) = 6 ∧ (9 : Nat) = 9
        else (4 : Nat) = 4 ∧ (20 : Nat) = 20 := by
      split
      · exact ⟨rfl, rfl⟩
      · exact ⟨rfl, rfl⟩
    by_cases hlast : B.length ≤ m + c
    · -- final line: the accumulation is all of B
      have htk : (B.drop m).take c = B.drop m :=
        List.take_of_length_le (by simp only [List.length_drop]; omega)
      have hdropc : (B.drop m).drop c = [] :=
        List.drop_eq_nil_of_le (by simp only [List.length_drop]; omega)
      have hdec : b64decode (B.take m ++ (B.drop m).take c) = some framed := by
        rw [htk, List.take_append_drop, hB]
        exact b64_roundtrip framed hfb
      rw [hdropc, chunkLines_nil]
      by_cases hm0 : m = 0
      · subst hm0
        have hmark6 : if ((B.take 0).isEmpty) then (6 : Nat) = 6 ∧ (9 : Nat) = 9
            else (6 : Nat) = 4 ∧ (9 : Nat) = 20 := by simp
        rw [if_pos rfl]
        show readFrame (f + 1)
          (6 :: 9 :: ((B.drop 0).take c ++ 10 :: [])) (B.take 0) 0 = some R
        rw [readFrame_advance f 6 9 ((B.drop 0).take c) [] (B.take 0) 0 hmark6 hline10
          framed hdec (by rw [hflen]; omega)]
        rw [if_pos (rfl : (0 : Nat) = 0), hfread]
        rw [if_pos (show R.length + 2 ≤ framed.length - 2 from by rw [hflen]; omega)]
        exact hfin
      · have hEmpF : (B.take m).isEmpty = false := by
          have hpos : 0 < (B.take m).length := by
            simp only [List.length_take]
            omega
          cases htk2 : B.take m with
          | nil => rw [htk2] at hpos; simp at hpos
          | cons _ _ => rfl
        have hmark4 : if ((B.take m).isEmpty) then (4 : Nat) = 6 ∧ (20 : Nat) = 9
            else (4 : Nat) = 4 ∧ (20 : Nat) = 20 := by
          have hne : ¬ ((B.take m).isEmpty = true) := by rw [hEmpF]; simp
          rw [if_neg hne]
          exact ⟨rfl, rfl⟩
        rw [if_neg hm0, show (m == 0) = false from beq_eq_false_iff_ne.mpr hm0]
        show readFrame (f + 1)
          (4 :: 20 :: ((B.drop m).take c ++ 10 :: [])) (B.take m) (R.length + 2) = some R
        rw [readFrame_advance f 4 20 ((B.drop m).take c) [] (B.take m) (R.length + 2)
          hmark4 hline10 framed hdec (by omega)]
        rw [if_neg (by omega : ¬ R.length + 2 = 0)]
        rw [if_pos (show R.length + 2 ≤ framed.length - 2 from by rw [hflen]; omega)]
        exact hfin
    · -- intermediate line: the accumulation is a proper aligned prefix of B
      push_neg at hlast
      obtain ⟨k, hk⟩ : ∃ k, m + c = 4 * k := ⟨(m + c) / 4, by omega⟩
      have h3k : 3 * k ≤ framed.length := by
        rw [hBlen] at hlast
        omega
      have hdec : b64decode (B.take m ++ (B.drop m).take c) =
          some (framed.take (3 * k)) := by
        rw [hacc, hk, hB]
        exact b64decode_take k framed hfb h3k
      have hdlen : (framed.take (3 * k)).length = 3 * k := by
        simp only [List.length_take]
        omega
      have hdlow : 21 ≤ 3 * k := by omega
      have hdhigh : 3 * k ≤ framed.length - 1 := by
        rw [hBlen] at hlast
        rw [hflen]
        omega
      have hdread : read_u16 (framed.take (3 * k)) = R.length + 2 := by
        rw [read_u16_take framed _ (by omega), hfread]
      -- the recursive call provided by the induction hypothesis
      have hrec := ih (m + c) (fuelC - 1) (by omega) (by omega) (by omega) (by omega)
      rw [show ((m + c) == 0) = false from beq_eq_false_iff_ne.mpr (by omega),
        if_neg (by omega : ¬ m + c = 0)] at hrec
      have hrec' : readFrame f (chunkLines (fuelC - 1) c false ((B.drop m).drop c))
          (B.take m ++ (B.drop m).take c) (R.length + 2) = some R := by
        rw [hacc, List.drop_drop]
        exact hrec
      by_cases hm0 : m = 0
      · subst hm0
        have hmark6 : if ((B.take 0).isEmpty) then (6 : Nat) = 6 ∧ (9 : Nat) = 9
            else (6 : Nat) = 4 ∧ (9 : Nat) = 20 := by simp
        rw [if_pos rfl]
        show readFrame (f + 1)
          (6 :: 9 :: ((B.drop 0).take c ++
            10 :: chunkLines (fuelC - 1) c false ((B.drop 0).drop c))) (B.take 0) 0 = some R
        rw [readFrame_advance f 6 9 ((B.drop 0).take c) _ (B.take 0) 0 hmark6 hline10
          _ hdec (by rw [hdlen]; omega)]
        rw [if_pos (rfl : (0 : Nat) = 0), hdread]
        rw [if_neg (show ¬ R.length + 2 ≤ (framed.take (3 * k)).length - 2 from by
          rw [hdlen]; omega)]
        exact hrec'
      · have hEmpF : (B.take m).isEmpty = false := by
          have hpos : 0 < (B.take m).length := by
            simp only [List.length_take]
            omega
          cases htk2 : B.take m with
          | nil => rw [htk2] at hpos; simp at hpos
          | cons _ _ => rfl
        have hmark4 : if ((B.take m).isEmpty) then (4 : Nat) = 6 ∧ (20 : Nat) = 9
            else (4 : Nat) = 4 ∧ (20 : Nat) = 20 := by
          have hne : ¬ ((B.take m).isEmpty = true) := by rw [hEmpF]; simp
          rw [if_neg hne]
          exact ⟨rfl, rfl⟩
        rw [if_neg hm0, show (m == 0) = false from beq_eq_false_iff_ne.mpr hm0]
        show readFrame (f + 1)
          (4 :: 20 :: ((B.drop m).take c ++
            10 :: chunkLines (fuelC - 1) c false ((B.drop m).drop c))) (B.take m)
          (R.length + 2) = some R
        rw [readFrame_advance f 4 20 ((B.drop m).take c) _ (B.take m) (R.length + 2)
          hmark4 hline10 _ hdec (by omega)]
        rw [if_neg (by omega : ¬ R.length + 2 = 0)]
        rw [if_neg (show ¬ R.length + 2 ≤ (framed.take (3 * k)).length - 2 from by
          rw [hdlen]; omega)]
        exact hrec'

/-- C3, amended: serial-decoding the serial encoding of `R` returns
exactly `R` for every `linelength` in [32, 4096] such that
`linelength - 4` is a multiple of 4 (otherwise the decode-while-reading
step of the receiver rejects a non-4-aligned base64 prefix) and every
`R` of at most 65533 bytes (so the `u16` length prefix does not wrap);
`transport_serial.rs:51-92` against `transport_serial.rs:94-164`. -/
theorem C3_serial_roundtrip_amended (R : List Nat) (linelength : Nat)
    (h32 : 32 ≤ linelength) (h4096 : linelength ≤ 4096)
    (hmod : (linelength - 4) % 4 = 0)
    (hlen : R.length ≤ 65533) (hbytes : ∀ x ∈ R, x < 256) :
    decode_serial (encode_request linelength R) = some R := by
  have hwc : (R ++ be16 (crc16 R)).length = R.length + 2 := by simp [be16]
  have henc : encode_request linelength R =
      chunkLines (b64encode (be16 (R.length + 2) ++ R ++ be16 (crc16 R))).length
        (linelength - 4) true
        (b64encode (be16 (R.length + 2) ++ R ++ be16 (crc16 R))) := by
    simp only [encode_request]
    rw [hwc, List.append_assoc]
  have hflen : (be16 (R.length + 2) ++ R ++ be16 (crc16 R)).length = R.length + 4 := by
    simp [be16]
  have hBlen : (b64encode (be16 (R.length + 2) ++ R ++ be16 (crc16 R))).length =
      (R.length + 6) / 3 * 4 := by
    rw [b64encode_length, hflen]
  have hBpos : 0 < (b64encode (be16 (R.length + 2) ++ R ++ be16 (crc16 R))).length := by
    rw [hBlen]
    omega
  have hstream : (b64encode (be16 (R.length + 2) ++ R ++ be16 (crc16 R))).length ≤
      (encode_request linelength R).length := by
    rw [henc]
    exact chunkLines_length_ge _ _ _ _ (le_refl _) (by omega)
  have hloop := readFrame_loop R (be16 (R.length + 2) ++ R ++ be16 (crc16 R))
    (b64encode (be16 (R.length + 2) ++ R ++ be16 (crc16 R))) (linelength - 4)
    hbytes hlen rfl rfl (by omega) hmod
    ((encode_request linelength R).length + 1) 0
    (b64encode (be16 (R.length + 2) ++ R ++ be16 (crc16 R))).length
    (by omega) hBpos (by omega) (by omega)
  rw [List.drop_zero, List.take_zero, if_pos rfl,
    show ((0 : Nat) == 0) = true from rfl] at hloop
  rw [← henc] at hloop
  rw [decode_serial]
  exact hloop

set_option maxRecDepth 8000 in
/-- C3, counterexample: with `linelength = 33` (inside [32, 4096]) and an
18-byte request, the encoded frame spans two lines of 29 and 3 base64
characters; after the first line the receiver base64-decodes the 29
accumulated characters (`transport_serial.rs:130`), which the canonical
decoder rejects (29 is not a multiple of 4), so the round trip fails
instead of returning the request bytes. -/
theorem C3_roundtrip_counterexample :
    (32 ≤ 33 ∧ 33 ≤ 4096) ∧
    decode_serial (encode_request 33 (List.replicate 18 0)) = none := by
  constructor
  · exact ⟨by decide, by decide⟩
  · decide

/-- C3, witness: the amended round trip evaluated at `linelength = 32`
and `R = [1, 2, 3]`. -/
theorem C3_serial_roundtrip_witness :
    (32 ≤ 32 ∧ 32 ≤ 4096 ∧ (32 - 4) % 4 = 0 ∧ ([1, 2, 3] : List Nat).length ≤ 65533) ∧
    decode_serial (encode_request 32 [1, 2, 3]) = some [1, 2, 3] := by
  refine ⟨⟨by decide, by decide, by decide, by decide⟩, ?_⟩
  exact C3_serial_roundtrip_amended [1, 2, 3] 32 (by decide) (by decide) (by decide)
    (by decide) (by decide)

end McumgrClient
